import Mathlib

/-! Host scanner: scan orchestration and result correlation.

A shallow embedding of `hostscanner.go`.  Go strings are Lean `String`s, Go
slices are `List`s, Go maps are association lists in the order the `range`
loop visits them, and `nil` pointers / SQL `NULL` are `none`.

The parts of the Go standard library that the program calls
(`strings.Index`, `Contains`, `Count`, `Split`, `SplitN`, `Replace`, `Join`,
`HasPrefix`) are transcribed from their Go implementation; the grep loop
carries the token limit of its `bufio.Scanner`.
-/

set_option autoImplicit false
set_option linter.dupNamespace false

namespace Hostscanner

/-! ## Go `strings` package -/

/-- Position of the first occurrence of `substr` in `s`, if any. -/
def indexChars (substr : List Char) : List Char → Option Nat
  | [] => if substr.isPrefixOf [] then some 0 else none
  | c :: t =>
    if substr.isPrefixOf (c :: t) then some 0
    else (indexChars substr t).map (fun i => i + 1)

/-- Go `strings.Index(s, substr)`: index of the first instance of `substr`
in `s`, or `-1` if `substr` is not present. -/
def Index (s substr : String) : Int :=
  match indexChars substr.data s.data with
  | some i => (i : Int)
  | none => -1

/-- Go `strings.Contains(s, substr)`, which is `Index(s, substr) >= 0`. -/
def Contains (s substr : String) : Bool :=
  decide (Index s substr ≥ 0)

/-- PostgreSQL `strpos(string, substring)`: the 1-based position of the first
occurrence of `substring`, or `0` when it does not occur. -/
def strpos (s substr : String) : Nat :=
  match indexChars substr.data s.data with
  | some i => i + 1
  | none => 0

/-- Go `strings.HasPrefix(s, prefix)`. -/
def HasPrefix (s pre : String) : Bool :=
  pre.data.isPrefixOf s.data

/-- Loop of Go `strings.Count` for a non-empty `substr`: find the next
instance, count it, continue behind it.  The extra argument bounds the number
of iterations; `Count` passes the length of `s` plus one, and every iteration
removes at least one character. -/
def countLoop (substr : List Char) : Nat → List Char → Nat
  | 0, _ => 0
  | fuel + 1, s =>
    match indexChars substr s with
    | none => 0
    | some i => countLoop substr fuel (s.drop (i + substr.length)) + 1

/-- Go `strings.Count(s, substr)`: number of non-overlapping instances of
`substr` in `s`; for an empty `substr`, the number of characters plus one. -/
def Count (s substr : String) : Nat :=
  if substr.data = [] then s.data.length + 1
  else countLoop substr.data (s.data.length + 1) s.data

/-- Go `explode(s, n)`: `s` cut into one-character strings, at most `n` of
them, the last one holding the remainder. -/
def explode : Nat → List Char → List (List Char)
  | 0, _ => []
  | _ + 1, [] => []
  | 1, c :: t => [c :: t]
  | n + 2, c :: t => [c] :: explode (n + 1) t

/-- Loop of Go `genSplit` (with `sepSave = 0`): at most `n` cuts at the
successive instances of `sep`, then the remainder. -/
def splitLoop (sep : List Char) : Nat → List Char → List (List Char)
  | 0, s => [s]
  | n + 1, s =>
    match indexChars sep s with
    | none => [s]
    | some m => s.take m :: splitLoop sep n (s.drop (m + sep.length))

/-- Go `genSplit(s, sep, 0, n)`: `nil` for `n == 0`, `explode` for an empty
separator, `Count(s, sep) + 1` pieces for a negative `n`, at most `n` pieces
otherwise. -/
def genSplit (s sep : String) (n : Int) : List String :=
  if n = 0 then []
  else if sep.data = [] then
    (explode (if n < 0 then s.data.length else n.toNat) s.data).map String.mk
  else
    let k : Nat := if n < 0 then Count s sep + 1 else n.toNat
    (splitLoop sep.data (k - 1) s.data).map String.mk

/-- Go `strings.Split(s, sep)`, which is `genSplit(s, sep, 0, -1)`. -/
def Split (s sep : String) : List String :=
  genSplit s sep (-1)

/-- Go `strings.SplitN(s, sep, n)`, which is `genSplit(s, sep, 0, n)`. -/
def SplitN (s sep : String) (n : Int) : List String :=
  genSplit s sep n

/-- Loop of Go `strings.Replace` for a non-empty `old`: `n` times, copy up to
the next instance of `old`, write `new`, continue behind the instance; then
copy the remainder.  `Replace` runs it with `n` at most `Count(s, old)`, so
the instance is always found. -/
def replaceLoop (old new : List Char) : Nat → List Char → List Char
  | 0, s => s
  | n + 1, s =>
    match indexChars old s with
    | none => s
    | some j => s.take j ++ new ++ replaceLoop old new n (s.drop (j + old.length))

/-- Loop of Go `strings.Replace` for an empty `old`, after the first
iteration (which writes `new` in front): copy one character, write `new`. -/
def replaceEmptyLoop (new : List Char) : Nat → List Char → List Char
  | 0, s => s
  | _ + 1, [] => []
  | n + 1, c :: t => c :: (new ++ replaceEmptyLoop new n t)

/-- Go `strings.Replace(s, old, new, n)`: `s` with the first `n`
non-overlapping instances of `old` replaced by `new`; all of them when
`n < 0`. -/
def Replace (s old new : String) (n : Int) : String :=
  if old = new ∨ n = 0 then s
  else
    let m := Count s old
    if m = 0 then s
    else
      let k : Nat := if n < 0 ∨ (m : Int) < n then m else n.toNat
      if old.data = [] then String.mk (new.data ++ replaceEmptyLoop new.data (k - 1) s.data)
      else String.mk (replaceLoop old.data new.data k s.data)

/-- Go `strings.Join(elems, sep)`: the first element, then `sep` and the next
element for every further one; the empty string for no element. -/
def Join : List String → String → String
  | [], _ => ""
  | e :: rest, sep => rest.foldl (fun b s => b ++ sep ++ s) e

/-- Ways the program stops early: `log.Fatal` (also through `handleError`),
or a run-time panic of the Go runtime. -/
inductive Failure where
  | fatal (msg : String)
  | divideByZero
  | indexOutOfRange
  deriving DecidableEq, Repr

/-- Go slice indexing `a[i]`, which panics when `i` is out of range. -/
def index {α : Type} (a : List α) (i : Nat) : Except Failure α :=
  match a.get? i with
  | some x => .ok x
  | none => .error Failure.indexOutOfRange

/-! ## Fingerprint correlation (`wappalyzeResults`) -/

/-- Effect on one row of `"Domains"` of the batch statement
`UPDATE "Domains" SET services = data_table.services ... WHERE
"Domains".name = data_table.name AND ("Domains".services IS NULL OR
strpos("Domains".services, data_table.services) = 0)`
for a joined pair `(name, new)`: `old` is the stored `services` value
(`none` is `NULL`), the result is the value stored afterwards. -/
def merge (old : Option String) (new : String) : Option String :=
  match old with
  | none => some new
  | some o => if strpos o new = 0 then some new else some o

/-! ## Scan requests and the outside world -/

/-- The anonymous struct field `Request` of the Go type `Request`.  The map
`Headers` is the list of its entries in the order the `range` loop visits
them. -/
structure HttpRequest where
  Method : String
  Uri : String
  Headers : List (String × String)
  Body : String
  deriving DecidableEq, Repr

/-- Go type `Request`.  The map `Filters` is the list of its entries in the
order the `range` loop visits them. -/
structure Request where
  Filters : List (String × List String)
  Greps : List String
  Request : HttpRequest
  deriving DecidableEq, Repr

/-- What the collaborators of one run of `initHostScan` answer. -/
structure World where
  /-- Value of `getTimestamp(true)`. -/
  scanID : String
  /-- Lines of the file `path.Join(configPath, id)`, or `none` when `os.Open`
  fails. -/
  openConfig : String → Option (List String)
  /-- Rows `(name, ports)` that `db.Query(query)` yields. -/
  dbQuery : String → List (String × String)
  /-- Lines of the standard output of `meg` for an argument vector, as the
  scanner of line 178 delivers them. -/
  megStdout : List String → List String
  /-- Lines that `grep -Hri pattern dir` prints on its standard output. -/
  grepStdout : String → String → List String

/-- What one run of `initHostScan` does, in program order. -/
structure Outcome where
  /-- The resolved path list `paths`. -/
  paths : List String
  /-- The text passed to `db.Query`. -/
  query : String
  /-- The strings written to `hosts.txt`, one per `WriteString` call. -/
  hostsFile : List String
  /-- The variable `count` after the row loop. -/
  count : Int
  /-- The strings written to `paths.txt`, one per `WriteString` call. -/
  pathsFile : List String
  /-- The argument vector of `meg`. -/
  args : List String
  /-- The second arguments of the successive `updateTaskPercentage` calls. -/
  percentages : List Int
  /-- The slice `alertOutput` after the grep loops. -/
  alertOutput : List String
  /-- The arguments of the `updateTaskOutput` call, if it is made. -/
  taskOutput : Option (String × String × Int)
  /-- Whether `wappalyzeResults(scanID, rootPath, outPath)` is called. -/
  wappalyze : Bool
  deriving DecidableEq, Repr

/-! ## `initHostScan`, block by block -/

/-- Lines 68-85: the path list.  The structured request gives its `Uri`, an
input starting with `/` is the single path, anything else names a config
file whose lines are the paths (`log.Fatal` when it cannot be opened). -/
def resolvePaths (w : World) (input : String) (megRequest : Option Request) :
    Except Failure (List String) :=
  match megRequest with
  | some r => .ok ([] ++ [r.Request.Uri])
  | none =>
    if HasPrefix input "/" then .ok ([] ++ [input])
    else
      match w.openConfig (Replace input "." "" (-1)) with
      | none => .error (Failure.fatal ("Unable to find config file " ++ input))
      | some lines => .ok (lines.foldl (fun paths line => paths ++ [line]) [])

/-- Lines 95-99, the body of the loop over `Filters` for one entry. -/
def filterStep (andConds : List String) (entry : String × List String) : List String :=
  if entry.2.length = 0 then andConds
  else
    let orConds := entry.2.foldl
      (fun orConds val => orConds ++ [entry.1 ++ " LIKE \x27%" ++ val ++ "%\x27"]) []
    andConds ++ ["(" ++ Join orConds " OR " ++ ")"]

/-- Lines 87-102: the text of the inventory query. -/
def buildQuery (megRequest : Option Request) : String :=
  match megRequest with
  | none => "SELECT name, ports FROM \"Domains\" WHERE ports LIKE \x27%80%\x27 OR ports LIKE \x27%443%\x27;"
  | some r =>
    "SELECT name, ports FROM \"Domains\" WHERE " ++ Join (r.Filters.foldl filterStep []) " AND "

/-- Lines 113-126: the loop over the rows; the state is the text written to
`hosts.txt` so far and `count`. -/
def hostStep (st : List String × Int) (row : String × String) : List String × Int :=
  let protocol := if Contains row.2 "443" then "https://" else "http://"
  (st.1 ++ [protocol ++ row.1 ++ "\n"], st.2 + 1)

/-- Lines 113-126: the writes to `hosts.txt` and the final `count`. -/
def writeHosts (rows : List (String × String)) : List String × Int :=
  rows.foldl hostStep ([], 0)

/-- Lines 148-155, the body of the loop over `Headers` for one entry. -/
def headerStep (args : List String) (h : String × String) : List String :=
  if h.1 = "Host" ∨ h.1 = "User-Agent" then
    if Contains h.2 "\x7bhost\x7d" then args
    else ((args ++ ["--rawhttp"]) ++ ["-H"]) ++ [h.1 ++ ": " ++ h.2]
  else (args ++ ["-H"]) ++ [h.1 ++ ": " ++ h.2]

/-- Lines 142-165: the argument vector of `meg`. -/
def buildArgs (megRequest : Option Request) (pathsPath hostsPath outPath : String) :
    List String :=
  let args := ["-c", "30", "-v"]
  let args :=
    match megRequest with
    | none => args
    | some r =>
      let args := (args ++ ["-X"]) ++ [r.Request.Method]
      let args := r.Request.Headers.foldl headerStep args
      if r.Request.Body ≠ "" then (args ++ ["-b"]) ++ [r.Request.Body] else args
  ((args ++ [pathsPath]) ++ [hostsPath]) ++ [outPath]

/-- Line 181: the expression `(100*cur)/count`.  Go integer division panics on
a zero divisor and truncates towards zero otherwise.  `cur` counts the lines
read so far and `count` the rows read, both of type `int` (64 bits); the
product `100*cur` is taken as it is, without wrap-around at `2^63`. -/
def percentage (cur count : Int) : Except Failure Int :=
  if count = 0 then .error Failure.divideByZero
  else .ok ((100 * cur).tdiv count)

/-- Lines 177-183: the loop over the lines of the standard output of the prober,
from the value `cur` on; the result is the list of reported percentages. -/
def progressLoop (count : Int) : List String → Int → Except Failure (List Int)
  | [], _ => .ok []
  | _ :: rest, cur =>
    match percentage (cur + 1) count with
    | .error e => .error e
    | .ok p =>
      match progressLoop count rest (cur + 1) with
      | .error e => .error e
      | .ok ps => .ok (p :: ps)

/-- Line 204: the condition under which a line of grep output is skipped. -/
def skipLine (text : String) : Bool :=
  !Contains text "/" || !Contains text ":" || Contains text "megoutput//index:"

/-- Line 207: the domain of an alert. -/
def alertDomain (outPath text : String) : Except Failure String :=
  index (Split (Replace text (outPath ++ "/") "" 1) "/") 0

/-- Line 208: the matched text of an alert. -/
def alertMatch (text : String) : Except Failure String :=
  index (SplitN text ":" 2) 1

/-- Lines 203-211, the body of the loop over the lines of grep output: the
alert line appended to `alertOutput`, or `none` when the line is skipped. -/
def alertOfLine (outPath grep text : String) : Except Failure (Option String) :=
  if skipLine text then .ok none
  else
    match alertDomain outPath text with
    | .error e => .error e
    | .ok domain =>
      match alertMatch text with
      | .error e => .error e
      | .ok m => .ok (some ("Domain " ++ domain ++ " matched string " ++ grep ++ ": " ++ m))

/-- Go `bufio.MaxScanTokenSize`: the size of the buffer of a `bufio.Scanner`
that was not given another one. -/
def maxScanTokenSize : Nat := 64 * 1024

/-- Lines 201-212: the loop `for in.Scan()` over the lines that one grep run
prints.  The scanner `in` has the default buffer, so at a line of
`maxScanTokenSize` bytes or more `Scan` returns false (`ErrTooLong`) and the
loop ends; `in.Err()` is not looked at, so the run goes on with the alerts
collected so far. -/
def grepLines (outPath grep : String) :
    List String → List String → Except Failure (List String)
  | [], alertOutput => .ok alertOutput
  | text :: rest, alertOutput =>
    if maxScanTokenSize ≤ text.utf8ByteSize then .ok alertOutput
    else
      match alertOfLine outPath grep text with
      | .error e => .error e
      | .ok none => grepLines outPath grep rest alertOutput
      | .ok (some alertLine) => grepLines outPath grep rest (alertOutput ++ [alertLine])

/-- Lines 194-213: the loop over `Greps`. -/
def grepAll (w : World) (outPath : String) :
    List String → List String → Except Failure (List String)
  | [], alertOutput => .ok alertOutput
  | grep :: rest, alertOutput =>
    match grepLines outPath grep (w.grepStdout grep outPath) alertOutput with
    | .error e => .error e
    | .ok alertOutput => grepAll w outPath rest alertOutput

/-- Lines 214-217: the notification sent when there is at least one alert. -/
def alertNotification (uri : String) (alertOutput : List String) :
    Option (String × String × Int) :=
  if alertOutput.length > 0 then
    let alertText := toString alertOutput.length ++ " results found for request to " ++ uri ++ ":\n"
    some ("Host Scan for " ++ uri, alertText ++ Join alertOutput "\n", 3)
  else none

/-- Line 60: the per-scan directory `rootPath`. -/
def rootPathOf (scanID : String) : String :=
  "output/hostscanner/" ++ scanID ++ "/"

/-- Line 63: the scan output directory `outPath`. -/
def outPathOf (scanID : String) : String :=
  rootPathOf scanID ++ "megoutput/"

/-- Function `initHostScan(input, taskID, megRequest)`.  Database, file and
process errors other than the missing config file are taken not to happen;
among them is the read error on the output of the prober, which lines 185-190
turn into `log.Fatal` unless the deadline has passed. -/
def initHostScan (w : World) (input : String) (megRequest : Option Request) :
    Except Failure Outcome :=
  let rootPath := rootPathOf w.scanID
  let hostsPath := rootPath ++ "hosts.txt"
  let pathsPath := rootPath ++ "paths.txt"
  let outPath := outPathOf w.scanID
  match resolvePaths w input megRequest with
  | .error e => .error e
  | .ok paths =>
    let query := buildQuery megRequest
    let hosts := writeHosts (w.dbQuery query)
    let count := hosts.2
    let pathsFile := paths.map (fun path => path ++ "\n")
    let args := buildArgs megRequest pathsPath hostsPath outPath
    match progressLoop count (w.megStdout args) 0 with
    | .error e => .error e
    | .ok percentages =>
      let alerts : Except Failure (List String) :=
        match megRequest with
        | none => .ok []
        | some r => grepAll w outPath r.Greps []
      match alerts with
      | .error e => .error e
      | .ok alertOutput =>
        .ok {
          paths := paths
          query := query
          hostsFile := hosts.1
          count := count
          pathsFile := pathsFile
          args := args
          percentages := percentages
          alertOutput := alertOutput
          taskOutput :=
            match megRequest with
            | none => none
            | some r => alertNotification r.Request.Uri alertOutput
          wappalyze := decide (input = "/") }

/-- Function `initWithJSONInput(jsonInput, taskID)`, after `json.Unmarshal`
has produced `request`. -/
def initWithJSONInput (w : World) (request : Request) : Except Failure Outcome :=
  initHostScan w "" (some request)

/-! ## Concrete scans -/

/-- A run with one inventory row `a.com` with ports `80,443`, the config file
`default` holding the paths `/` and `/robots.txt`, and a prober that prints
two lines. -/
def configWorld : World where
  scanID := "20200101000000"
  openConfig := fun id => if id = "default" then some ["/", "/robots.txt"] else none
  dbQuery := fun _ => [("a.com", "80,443")]
  megStdout := fun _ => ["https://a.com/ (200 OK)", "https://a.com/robots.txt (200 OK)"]
  grepStdout := fun _ _ => []

/-- A structured request whose only header is a `Host` header carrying the
`{host}` placeholder. -/
def placeholderRequest : Request where
  Filters := [("ports", ["80", "443"]), ("name", ["example"])]
  Greps := []
  Request := { Method := "GET", Uri := "/", Headers := [("Host", "\x7bhost\x7d")], Body := "" }

/-- A line of grep output, in the form GNU grep prints it, for host `b.com`. -/
def shortLine : String :=
  "output/hostscanner/20200101000000/megoutput/b.com/abc123:admin panel"

/-- The file name part of `longLine`. -/
def longLineHead : String :=
  "output/hostscanner/20200101000000/megoutput/a.com/abc123:"

/-- A line of grep output for host `a.com` whose matched line of the captured
response is 65536 characters long. -/
def longLine : String :=
  longLineHead ++ String.mk (List.replicate 65536 'a')

/-! ## Lemmas on the string functions -/

theorem isPrefixOf_self (l : List Char) : l.isPrefixOf l = true := by
  induction l with
  | nil => rfl
  | cons c t ih => simp [List.isPrefixOf, ih]

theorem indexChars_self (l : List Char) : indexChars l l = some 0 := by
  cases l with
  | nil => rfl
  | cons c t => simp [indexChars, isPrefixOf_self]

theorem strpos_self (s : String) : strpos s s = 1 := by
  simp [strpos, indexChars_self]

theorem indexChars_of_isPrefixOf (substr s : List Char) (h : substr.isPrefixOf s = true) :
    indexChars substr s = some 0 := by
  cases s with
  | nil => simp [indexChars, h]
  | cons c t => simp [indexChars, h]

theorem indexChars_append_left (p x : List Char) : indexChars p (p ++ x) = some 0 :=
  indexChars_of_isPrefixOf p (p ++ x) (List.isPrefixOf_iff_prefix.mpr (List.prefix_append p x))

theorem indexChars_singleton (c : Char) (h rest : List Char) (hc : c ∉ h) :
    indexChars [c] (h ++ c :: rest) = some h.length := by
  induction h with
  | nil => simp [indexChars, List.isPrefixOf]
  | cons a t ih =>
    have hne : ¬ c = a := fun e => hc (by simp [e])
    have ht : c ∉ t := fun m => hc (List.mem_cons_of_mem a m)
    simp [indexChars, List.isPrefixOf, hne, ih ht]

theorem indexChars_isSome_iff (substr s : List Char) :
    (indexChars substr s).isSome = true ↔ substr <:+: s := by
  induction s with
  | nil =>
    cases substr with
    | nil => simp [indexChars]
    | cons a t => simp [indexChars, List.isPrefixOf]
  | cons c t ih =>
    by_cases hp : substr.isPrefixOf (c :: t) = true
    · simp only [indexChars, hp, if_true, Option.isSome_some, true_iff]
      exact (List.isPrefixOf_iff_prefix.mp hp).isInfix
    · have hnp : ¬ substr <+: c :: t := fun h => hp (List.isPrefixOf_iff_prefix.mpr h)
      simp only [indexChars, hp, List.infix_cons_iff, hnp, false_or]
      simpa using ih

theorem Contains_eq_isSome (s substr : String) :
    Contains s substr = (indexChars substr.data s.data).isSome := by
  unfold Contains Index
  cases indexChars substr.data s.data with
  | none => simp
  | some i => simp

/-- The function `Contains` decides whether `substr` occurs in `s` as a block of
consecutive characters. -/
theorem Contains_iff_occurs (s substr : String) :
    Contains s substr = true ↔ substr.data <:+: s.data := by
  rw [Contains_eq_isSome, indexChars_isSome_iff]

theorem Contains_char_false (s : String) (c : Char) (h : Contains s (String.mk [c]) = false) :
    c ∉ s.data := by
  intro hm
  have hinf : (String.mk [c]).data <:+: s.data := by
    obtain ⟨a, b, hab⟩ := List.append_of_mem hm
    exact ⟨a, b, by simp [hab]⟩
  rw [(Contains_iff_occurs s (String.mk [c])).mpr hinf] at h
  cases h

theorem Count_pos (s substr : String) (i : Nat)
    (h : indexChars substr.data s.data = some i) : 1 ≤ Count s substr := by
  unfold Count
  by_cases he : substr.data = []
  · simp [he]
  · simp [he, countLoop, h]

theorem indexChars_nil (substr : List Char) (h : substr ≠ []) : indexChars substr [] = none := by
  cases substr with
  | nil => exact absurd rfl h
  | cons a t => simp [indexChars, List.isPrefixOf]

/-- The iteration bound of `countLoop` is never reached: any bound above the
length of `s` gives the same count. -/
theorem countLoop_fuel (substr : List Char) (h : substr ≠ []) (n : Nat) :
    ∀ (s : List Char) (f g : Nat), s.length ≤ n → n < f → n < g →
      countLoop substr f s = countLoop substr g s := by
  induction n with
  | zero =>
    intro s f g hs hf hg
    have hnil : s = [] := List.length_eq_zero.mp (by omega)
    obtain ⟨a, rfl⟩ : ∃ a, f = a + 1 := ⟨f - 1, by omega⟩
    obtain ⟨b, rfl⟩ : ∃ b, g = b + 1 := ⟨g - 1, by omega⟩
    simp [countLoop, hnil, indexChars_nil substr h]
  | succ n ih =>
    intro s f g hs hf hg
    obtain ⟨a, rfl⟩ : ∃ a, f = a + 1 := ⟨f - 1, by omega⟩
    obtain ⟨b, rfl⟩ : ∃ b, g = b + 1 := ⟨g - 1, by omega⟩
    cases hi : indexChars substr s with
    | none => simp [countLoop, hi]
    | some i =>
      have hpos : 0 < substr.length := List.length_pos.mpr h
      have hdrop : (s.drop (i + substr.length)).length ≤ n := by
        rw [List.length_drop]
        omega
      simp only [countLoop, hi]
      rw [ih (s.drop (i + substr.length)) a b hdrop (by omega) (by omega)]

theorem splitLoop_cons (sep : List Char) (n : Nat) (s : List Char) :
    ∃ x rest, splitLoop sep n s = x :: rest := by
  cases n with
  | zero => exact ⟨s, [], rfl⟩
  | succ k =>
    cases h : indexChars sep s with
    | none => exact ⟨s, [], by simp [splitLoop, h]⟩
    | some m =>
      exact ⟨s.take m, splitLoop sep k (s.drop (m + sep.length)), by simp [splitLoop, h]⟩

theorem index_map_cons {α β : Type} (f : α → β) (x : α) (rest : List α) :
    index ((x :: rest).map f) 0 = .ok (f x) := rfl

/-- The expression `Split(s, sep)[0]` never panics for a non-empty separator. -/
theorem Split_index_zero (s sep : String) (hsep : sep.data ≠ []) :
    ∃ d, index (Split s sep) 0 = .ok d := by
  unfold Split genSplit
  simp only [hsep, if_false, show ¬ ((-1 : Int) = 0) by decide]
  obtain ⟨x, rest, hx⟩ := splitLoop_cons sep.data
    ((if (-1 : Int) < 0 then Count s sep + 1 else (-1 : Int).toNat) - 1) s.data
  rw [hx]
  exact ⟨_, rfl⟩

/-- The expression `Split(s, sep)[0]` is the text before the first separator. -/
theorem Split_index_zero_of_mem (s : String) (c : Char) (h rest : List Char)
    (hs : s.data = h ++ c :: rest) (hc : c ∉ h) :
    index (Split s (String.mk [c])) 0 = .ok (String.mk h) := by
  have hidx : indexChars (String.mk [c]).data s.data = some h.length := by
    rw [hs]
    exact indexChars_singleton c h rest hc
  have hcount := Count_pos s (String.mk [c]) h.length hidx
  obtain ⟨k, hk⟩ : ∃ k, Count s (String.mk [c]) = k + 1 := ⟨Count s (String.mk [c]) - 1, by omega⟩
  unfold Split genSplit
  have hsep : ¬ (String.mk [c]).data = [] := by simp
  simp only [hsep, if_false, show ¬ ((-1 : Int) = 0) by decide, show ((-1 : Int) < 0) by decide,
    if_true, hk, Nat.add_sub_cancel]
  simp only [splitLoop, hidx]
  rw [index_map_cons, hs]
  simp

/-- The expression `SplitN(s, sep, 2)[1]` does not panic when `sep` occurs in `s`. -/
theorem SplitN_index_one (s sep : String) (hsep : sep.data ≠ [])
    (h : Contains s sep = true) : ∃ m, index (SplitN s sep 2) 1 = .ok m := by
  rw [Contains_eq_isSome] at h
  obtain ⟨i, hi⟩ := Option.isSome_iff_exists.mp h
  unfold SplitN genSplit
  simp only [hsep, if_false, show ¬ ((2 : Int) = 0) by decide, show ¬ ((2 : Int) < 0) by decide]
  have h2 : (2 : Int).toNat - 1 = 1 := by decide
  rw [h2]
  simp only [splitLoop, hi]
  exact ⟨_, rfl⟩

/-- The call `Replace(text, old, "", 1)` removes `old` from the front of a text that
starts with it. -/
theorem Replace_first_at_start (text old : String) (x : List Char) (hold : old.data ≠ [])
    (htext : text.data = old.data ++ x) : Replace text old "" 1 = String.mk x := by
  have hidx : indexChars old.data text.data = some 0 := by
    rw [htext]
    exact indexChars_append_left old.data x
  have hcount := Count_pos text old 0 hidx
  have hne : ¬ old = "" := fun e => hold (by rw [e])
  unfold Replace
  have hk : ¬ ((1 : Int) < 0 ∨ (Count text old : Int) < 1) := by omega
  have hm : ¬ Count text old = 0 := by omega
  simp only [hne, show ¬ ((1 : Int) = 0) by decide, or_self, if_false, hm, hk, hold]
  have h1 : (1 : Int).toNat = 1 := by decide
  rw [h1]
  rw [htext] at hidx
  simp only [replaceLoop, htext, hidx]
  simp

/-! ## Lemmas on the alert scanner -/

theorem skipLine_eq_false_iff (text : String) :
    skipLine text = false ↔
      (Contains text "/" = true ∧ Contains text ":" = true ∧
        Contains text "megoutput//index:" = false) := by
  unfold skipLine
  cases Contains text "/" <;> cases Contains text ":" <;>
    cases Contains text "megoutput//index:" <;> simp

theorem alertOfLine_skip (outPath grep text : String) (h : skipLine text = true) :
    alertOfLine outPath grep text = .ok none := by
  simp [alertOfLine, h]

theorem alertOfLine_pass (outPath grep text : String) (h : skipLine text = false) :
    ∃ domain m, alertDomain outPath text = .ok domain ∧ alertMatch text = .ok m ∧
      alertOfLine outPath grep text =
        .ok (some ("Domain " ++ domain ++ " matched string " ++ grep ++ ": " ++ m)) := by
  obtain ⟨-, hcolon, -⟩ := (skipLine_eq_false_iff text).mp h
  obtain ⟨d, hd⟩ := Split_index_zero (Replace text (outPath ++ "/") "" 1) "/" (by decide)
  obtain ⟨m, hm⟩ := SplitN_index_one text ":" (by decide) hcolon
  have hd2 : alertDomain outPath text = .ok d := hd
  have hm2 : alertMatch text = .ok m := hm
  exact ⟨d, m, hd2, hm2, by simp [alertOfLine, h, hd2, hm2]⟩

/-- The grep loop never panics and appends at most one alert per line that is
not skipped. -/
theorem grepLines_total (outPath grep : String) (lines : List String) (acc : List String) :
    ∃ alerts, grepLines outPath grep lines acc = .ok (acc ++ alerts) ∧
      alerts.length ≤ (lines.filter (fun text => !skipLine text)).length := by
  induction lines generalizing acc with
  | nil => exact ⟨[], by simp [grepLines], by simp⟩
  | cons text rest ih =>
    by_cases hlong : maxScanTokenSize ≤ text.utf8ByteSize
    · exact ⟨[], by simp [grepLines, hlong], by simp⟩
    · cases hs : skipLine text with
      | true =>
        obtain ⟨alerts, h1, h2⟩ := ih acc
        exact ⟨alerts, by simp [grepLines, hlong, alertOfLine_skip outPath grep text hs, h1],
          by simp [List.filter_cons, hs, h2]⟩
      | false =>
        obtain ⟨d, m, -, -, h3⟩ := alertOfLine_pass outPath grep text hs
        obtain ⟨alerts, h1, h2⟩ :=
          ih (acc ++ ["Domain " ++ d ++ " matched string " ++ grep ++ ": " ++ m])
        exact ⟨("Domain " ++ d ++ " matched string " ++ grep ++ ": " ++ m) :: alerts,
          by simp [grepLines, hlong, h3, h1], by simp [List.filter_cons, hs, h2]⟩

/-- When every line grep prints is shorter than the scanner buffer, the grep
loop appends exactly one alert per line that is not skipped. -/
theorem grepLines_short (outPath grep : String) (lines : List String) (acc : List String)
    (hshort : ∀ text ∈ lines, text.utf8ByteSize < maxScanTokenSize) :
    ∃ alerts, grepLines outPath grep lines acc = .ok (acc ++ alerts) ∧
      alerts.length = (lines.filter (fun text => !skipLine text)).length := by
  induction lines generalizing acc with
  | nil => exact ⟨[], by simp [grepLines], by simp⟩
  | cons text rest ih =>
    have hlong : ¬ maxScanTokenSize ≤ text.utf8ByteSize := by
      have := hshort text (by simp)
      omega
    have hrest : ∀ t ∈ rest, t.utf8ByteSize < maxScanTokenSize :=
      fun t ht => hshort t (List.mem_cons_of_mem text ht)
    cases hs : skipLine text with
    | true =>
      obtain ⟨alerts, h1, h2⟩ := ih acc hrest
      exact ⟨alerts, by simp [grepLines, hlong, alertOfLine_skip outPath grep text hs, h1],
        by simp [List.filter_cons, hs, h2]⟩
    | false =>
      obtain ⟨d, m, -, -, h3⟩ := alertOfLine_pass outPath grep text hs
      obtain ⟨alerts, h1, h2⟩ :=
        ih (acc ++ ["Domain " ++ d ++ " matched string " ++ grep ++ ": " ++ m]) hrest
      exact ⟨("Domain " ++ d ++ " matched string " ++ grep ++ ": " ++ m) :: alerts,
        by simp [grepLines, hlong, h3, h1], by simp [List.filter_cons, hs, h2]⟩

theorem length_le_utf8ByteSize (s : String) : s.data.length ≤ s.utf8ByteSize := by
  have h : ∀ l : List Char, l.length ≤ String.utf8ByteSize.go l := by
    intro l
    induction l with
    | nil => simp [String.utf8ByteSize.go]
    | cons c t ih =>
      have := Char.utf8Size_pos c
      simp only [String.utf8ByteSize.go, List.length_cons]
      omega
  exact h s.data

theorem longLine_too_long : maxScanTokenSize ≤ longLine.utf8ByteSize := by
  have h := length_le_utf8ByteSize longLine
  have hl : longLine.data.length = longLineHead.data.length + 65536 := by
    unfold longLine
    rw [String.data_append, List.length_append]
    exact congrArg _ (List.length_replicate 65536 'a')
  have hm : maxScanTokenSize = 65536 := rfl
  omega

theorem Contains_append_right (head tail sub : String) (h : Contains head sub = true) :
    Contains (head ++ tail) sub = true := by
  rw [Contains_iff_occurs] at h ⊢
  rw [String.data_append]
  exact h.trans (List.prefix_append head.data tail.data).isInfix

/-- A block that ends in a character other than `a` and occurs in a text
followed by a run of `a` occurs in the text itself. -/
theorem occurs_before_run (init p x y : List Char) (c a : Char) (n : Nat) (hca : c ≠ a)
    (h : x ++ (init ++ [c]) ++ y = p ++ List.replicate n a) :
    init ++ [c] <:+: p := by
  have hk : (p ++ List.replicate n a)[x.length + init.length]? = some c := by
    have e : x ++ (init ++ [c]) ++ y = (x ++ init) ++ (c :: y) := by simp
    rw [← h, e, List.getElem?_append_right (by simp)]
    simp
  have hlt : x.length + init.length < p.length := by
    by_contra hge
    rw [List.getElem?_append_right (by omega)] at hk
    have hmem : c ∈ List.replicate n a := List.getElem?_mem hk
    exact hca (List.eq_of_mem_replicate hmem)
  have hpre1 : x ++ (init ++ [c]) <+: p ++ List.replicate n a := ⟨y, h⟩
  have hpre2 : p <+: p ++ List.replicate n a := List.prefix_append _ _
  have hle : (x ++ (init ++ [c])).length ≤ p.length := by
    simp only [List.length_append, List.length_singleton]
    omega
  have hpre : x ++ (init ++ [c]) <+: p := List.prefix_of_prefix_length_le hpre1 hpre2 hle
  exact (List.suffix_append x (init ++ [c])).isInfix.trans hpre.isInfix

theorem longLine_not_skipped : skipLine longLine = false := by
  rw [skipLine_eq_false_iff]
  refine ⟨Contains_append_right _ _ _ (by decide), Contains_append_right _ _ _ (by decide), ?_⟩
  cases hc : Contains longLine "megoutput//index:" with
  | false => rfl
  | true =>
    rw [Contains_iff_occurs] at hc
    obtain ⟨x, y, hxy⟩ := hc
    have hocc : ("megoutput//index").data ++ [':'] <:+: longLineHead.data :=
      occurs_before_run ("megoutput//index").data longLineHead.data x y ':' 'a' 65536
        (by decide) (by
          rw [← String.data_append longLineHead]
          exact hxy)
    have hno : Contains longLineHead "megoutput//index:" = false := by decide
    rw [(Contains_iff_occurs longLineHead "megoutput//index:").mpr hocc] at hno
    cases hno

/-- The strip of line 207 works on a line in which the output directory is
followed by one more `/`: there the domain is the host. -/
theorem alertDomain_of_stripped (outPath host : String) (rest : List Char) (text : String)
    (hhost : Contains host "/" = false)
    (htext : text.data = (outPath ++ "/").data ++ (host.data ++ '/' :: rest)) :
    alertDomain outPath text = .ok host := by
  have hold : (outPath ++ "/").data ≠ [] := by
    rw [String.data_append]
    exact List.append_ne_nil_of_right_ne_nil _ (by decide)
  have hmem : '/' ∉ host.data := Contains_char_false host '/' hhost
  unfold alertDomain
  rw [Replace_first_at_start text (outPath ++ "/") _ hold htext]
  exact Split_index_zero_of_mem _ '/' host.data rest rfl hmem

/-! ## Lemmas on the loops that append to a slice -/

theorem foldl_append_singleton {α β : Type} (f : α → β) (l : List α) (acc : List β) :
    l.foldl (fun out x => out ++ [f x]) acc = acc ++ l.map f := by
  induction l generalizing acc with
  | nil => simp
  | cons x t ih => simp [ih]

theorem filterStep_foldl (filters : List (String × List String)) (acc : List String) :
    filters.foldl filterStep acc =
      acc ++ (filters.filter (fun e => decide (e.2 ≠ []))).map
        (fun e => "(" ++ Join (e.2.map (fun v => e.1 ++ " LIKE \x27%" ++ v ++ "%\x27")) " OR " ++ ")") := by
  induction filters generalizing acc with
  | nil => simp
  | cons e t ih =>
    rw [List.foldl_cons, ih]
    by_cases h : e.2 = []
    · simp [filterStep, h]
    · have hlen : e.2.length ≠ 0 := fun hl => h (List.length_eq_zero.mp hl)
      simp [filterStep, h, hlen, foldl_append_singleton (fun v => e.1 ++ " LIKE \x27%" ++ v ++ "%\x27")]

theorem hostStep_foldl (rows : List (String × String)) (st : List String × Int) :
    rows.foldl hostStep st =
      (st.1 ++ rows.map (fun row =>
          (if Contains row.2 "443" then "https://" else "http://") ++ row.1 ++ "\n"),
        st.2 + (rows.length : Int)) := by
  induction rows generalizing st with
  | nil => simp
  | cons row t ih =>
    rw [List.foldl_cons, ih]
    simp [hostStep]
    omega

theorem writeHosts_count (rows : List (String × String)) :
    (writeHosts rows).2 = (rows.length : Int) := by
  simp [writeHosts, hostStep_foldl]

/-! ## Lemmas on the progress loop -/

theorem percentage_of_ne_zero (cur count : Int) (h : count ≠ 0) :
    percentage cur count = .ok ((100 * cur).tdiv count) := by
  simp [percentage, h]

theorem progressLoop_zero_count (line : String) (rest : List String) (cur : Int) :
    progressLoop 0 (line :: rest) cur = .error Failure.divideByZero := by
  simp [progressLoop, percentage]

theorem progressLoop_of_ne_zero (count : Int) (h : count ≠ 0) (lines : List String) (cur : Int) :
    progressLoop count lines cur =
      .ok ((List.range lines.length).map (fun (i : Nat) => (100 * (cur + 1 + (i : Int))).tdiv count)) := by
  induction lines generalizing cur with
  | nil => simp [progressLoop]
  | cons line rest ih =>
    simp only [progressLoop, percentage_of_ne_zero _ _ h, ih, List.length_cons, List.range_succ_eq_map,
      List.map_cons, List.map_map]
    congr 2
    · simp
    · apply List.map_congr_left
      intro i _
      simp only [Function.comp, Nat.succ_eq_add_one, Nat.cast_add, Nat.cast_one]
      congr 2
      omega

theorem tdiv_percentage_eq (cur count : Int) (hcur : 0 ≤ cur) (hcount : 0 < count) :
    (100 * cur).tdiv count = (100 * cur) / count :=
  Int.tdiv_eq_ediv (by omega) (by omega)

theorem progressLoop_pos (count : Int) (h : 0 < count) (lines : List String) :
    progressLoop count lines 0 =
      .ok ((List.range lines.length).map (fun (i : Nat) => (100 * ((i : Int) + 1)) / count)) := by
  rw [progressLoop_of_ne_zero count (by omega)]
  congr 1
  apply List.map_congr_left
  intro i _
  rw [tdiv_percentage_eq _ _ (by omega) h]
  congr 2
  omega

theorem percentage_mono (count a b : Int) (h : 0 < count) (hab : a ≤ b) :
    (100 * a) / count ≤ (100 * b) / count :=
  Int.ediv_le_ediv h (by omega)

/-! ## Lemmas on the argument vector -/

theorem headerValue_ne_flag (name val : String) : name ++ ": " ++ val ≠ "-H" := by
  intro h
  have hd := congrArg String.data h
  simp only [String.data_append] at hd
  have hl := congrArg List.length hd
  simp only [List.length_append] at hl
  have h2 : (": " : String).data.length = 2 := rfl
  have h3 : ("-H" : String).data.length = 2 := rfl
  rw [h2, h3] at hl
  have hn : name.data = [] := List.length_eq_zero.mp (by omega)
  have hv : val.data = [] := List.length_eq_zero.mp (by omega)
  rw [hn, hv] at hd
  revert hd
  decide

theorem headerStep_foldl (headers : List (String × String)) (acc : List String) :
    headers.foldl headerStep acc =
      acc ++ (headers.filter (fun h =>
          !decide ((h.1 = "Host" ∨ h.1 = "User-Agent") ∧ Contains h.2 "\x7bhost\x7d" = true))).flatMap
        (fun h => (if h.1 = "Host" ∨ h.1 = "User-Agent" then ["--rawhttp"] else [])
          ++ ["-H", h.1 ++ ": " ++ h.2]) := by
  induction headers generalizing acc with
  | nil => simp
  | cons h t ih =>
    rw [List.foldl_cons, ih, List.filter_cons]
    by_cases hn : h.1 = "Host" ∨ h.1 = "User-Agent"
    · by_cases hc : Contains h.2 "\x7bhost\x7d" = true
      · have hk : (!decide ((h.1 = "Host" ∨ h.1 = "User-Agent") ∧
            Contains h.2 "\x7bhost\x7d" = true)) = false := by simp [hn, hc]
        simp only [hk, headerStep, if_pos hn, if_pos hc]
        simp
      · have hk : (!decide ((h.1 = "Host" ∨ h.1 = "User-Agent") ∧
            Contains h.2 "\x7bhost\x7d" = true)) = true := by simp [hc]
        simp only [hk, headerStep, if_pos hn, if_neg hc, List.flatMap_cons]
        simp [hn]
    · have hk : (!decide ((h.1 = "Host" ∨ h.1 = "User-Agent") ∧
          Contains h.2 "\x7bhost\x7d" = true)) = true := by simp [hn]
      simp only [hk, headerStep, if_neg hn, List.flatMap_cons]
      simp [(not_or.mp hn).1, (not_or.mp hn).2]

theorem count_headerFlags (headers : List (String × String)) :
    (headers.flatMap
        (fun h => (if h.1 = "Host" ∨ h.1 = "User-Agent" then ["--rawhttp"] else [])
          ++ ["-H", h.1 ++ ": " ++ h.2])).count "-H" = headers.length := by
  induction headers with
  | nil => simp
  | cons h t ih =>
    rw [List.flatMap_cons, List.count_append, ih]
    have hne : (h.1 ++ ": " ++ h.2 == "-H") = false := by
      simpa using headerValue_ne_flag h.1 h.2
    by_cases hn : h.1 = "Host" ∨ h.1 = "User-Agent"
    · simp [hn, List.count_cons, hne]
      omega
    · simp [hn, List.count_cons, hne]
      omega

/-! ## Lemmas on the fingerprint trigger -/

theorem initHostScan_wappalyze (w : World) (input : String) (megRequest : Option Request)
    (out : Outcome) (h : initHostScan w input megRequest = .ok out) :
    out.wappalyze = decide (input = "/") := by
  unfold initHostScan at h
  simp only at h
  split at h
  · cases h
  · split at h
    · cases h
    · split at h
      · cases h
      · cases h
        rfl

theorem initHostScan_count (w : World) (input : String) (megRequest : Option Request)
    (out : Outcome) (h : initHostScan w input megRequest = .ok out) :
    out.hostsFile = (writeHosts (w.dbQuery (buildQuery megRequest))).1
    ∧ out.count = (writeHosts (w.dbQuery (buildQuery megRequest))).2
    ∧ progressLoop out.count (w.megStdout out.args) 0 = .ok out.percentages := by
  unfold initHostScan at h
  simp only at h
  split at h
  · cases h
  · split at h
    · cases h
    · rename_i hp
      split at h
      · cases h
      · cases h
        exact ⟨rfl, rfl, hp⟩

/-! ## Claims -/

/-- C1. Idempotent correlation: applying the guarded update a second time with
the same summary leaves `services` as the first application left it, for
every stored value (including `NULL` and the empty string) and every
summary. -/
theorem merge_idempotent (old : Option String) (new : String) :
    merge (merge old new) new = merge old new := by
  cases old with
  | none => simp [merge, strpos_self]
  | some o =>
    by_cases h : strpos o new = 0
    · simp [merge, h, strpos_self]
    · simp [merge, h]

/-- C2. Filter predicate construction: in structured-request mode the text
after `WHERE ` is the " AND "-join, over the filters with a non-empty value
list in the order visited, of the parenthesised " OR "-join of
`column LIKE '%value%'` over the values; in particular the filters
`ports: [80, 443]`, `name: [example]` give
`(ports LIKE '%80%' OR ports LIKE '%443%') AND (name LIKE '%example%')`. -/
theorem buildQuery_filters (r : Request) :
    buildQuery (some r) =
      "SELECT name, ports FROM \"Domains\" WHERE " ++
        Join ((r.Filters.filter (fun e => decide (e.2 ≠ []))).map
          (fun e => "(" ++ Join (e.2.map (fun v => e.1 ++ " LIKE \x27%" ++ v ++ "%\x27")) " OR " ++ ")"))
          " AND "
    ∧ buildQuery (some { r with Filters := [("ports", ["80", "443"]), ("name", ["example"])] }) =
      "SELECT name, ports FROM \"Domains\" WHERE " ++
        "(ports LIKE \x27%80%\x27 OR ports LIKE \x27%443%\x27) AND (name LIKE \x27%example%\x27)" := by
  constructor
  · simp [buildQuery, filterStep_foldl]
  · rfl

/-- C3. Protocol selection: the row loop writes, for every row in order, the
line `https://name` when the port descriptor contains `443` and `http://name`
otherwise, and `count` ends as the number of lines written, which is the
number of rows; a scan that completes has written these lines to `hosts.txt`
and has run its progress loop with this `count`. -/
theorem writeHosts_lines (rows : List (String × String)) :
    (writeHosts rows).1 = rows.map (fun row =>
        (if Contains row.2 "443" then "https://" else "http://") ++ row.1 ++ "\n")
    ∧ (writeHosts rows).2 = ((writeHosts rows).1.length : Int)
    ∧ (writeHosts rows).2 = (rows.length : Int)
    ∧ (∀ (w : World) (input : String) (megRequest : Option Request) (out : Outcome),
        w.dbQuery (buildQuery megRequest) = rows →
        initHostScan w input megRequest = .ok out →
          out.hostsFile = rows.map (fun row =>
              (if Contains row.2 "443" then "https://" else "http://") ++ row.1 ++ "\n")
          ∧ out.count = (out.hostsFile.length : Int)
          ∧ progressLoop out.count (w.megStdout out.args) 0 = .ok out.percentages) := by
  have h1 : (writeHosts rows).1 = rows.map (fun row =>
      (if Contains row.2 "443" then "https://" else "http://") ++ row.1 ++ "\n") := by
    simp [writeHosts, hostStep_foldl]
  have h2 : (writeHosts rows).2 = (rows.length : Int) := writeHosts_count rows
  refine ⟨h1, by simp [h1, h2], h2, ?_⟩
  intro w input megRequest out hrows hrun
  obtain ⟨hf, hc, hp⟩ := initHostScan_count w input megRequest out hrun
  rw [hrows] at hf hc
  refine ⟨by rw [hf, h1], ?_, hp⟩
  rw [hc, hf, h1, h2]
  simp

/-- Witness for C3: the scan of the config `default` over the inventory row
`a.com` with ports `80,443` writes `https://a.com`. -/
theorem writeHosts_lines_witness :
    ∃ out, initHostScan configWorld "default" none = .ok out
      ∧ out.hostsFile = ["https://a.com\n"] ∧ out.count = 1
      ∧ out.percentages = [100, 200] :=
  ⟨_, rfl,
    ((writeHosts_lines [("a.com", "80,443")]).2.2.2 configWorld "default" none _ rfl rfl).1.trans
      (by decide),
    rfl, rfl⟩

/-- C6, as stated, fails: with one domain and two lines of prober output the
second reported percentage is 200. -/
theorem progress_bound_counterexample :
    (0 : Int) < 1 ∧ progressLoop 1 ["line 1", "line 2"] 0 = .ok [100, 200] ∧
      ¬ (∀ p ∈ [(100 : Int), 200], 0 ≤ p ∧ p ≤ 100) := by
  refine ⟨by decide, rfl, ?_⟩
  intro h
  have := (h 200 (by simp)).2
  omega

/-- C6, amended. Progress bound: for a domain count `count > 0` the loop
reports one percentage per line; every one of them is at least 0, and the
one reported for line number `cur` is at most 100 as long as `cur ≤ count`. -/
theorem progress_bounded_upto_count (count : Int) (lines : List String) (h : 0 < count) :
    ∃ ps, progressLoop count lines 0 = .ok ps ∧ ps.length = lines.length ∧
      ∀ (i : Nat) (p : Int), ps[i]? = some p →
        0 ≤ p ∧ ((i : Int) + 1 ≤ count → p ≤ 100) := by
  refine ⟨_, progressLoop_pos count h lines, by simp, ?_⟩
  intro i p hp
  rw [List.getElem?_map] at hp
  cases hr : (List.range lines.length)[i]? with
  | none => simp [hr] at hp
  | some j =>
    have hj : j = i := by
      by_cases hi : i < lines.length
      · rw [List.getElem?_range hi] at hr
        exact (Option.some.inj hr).symm
      · rw [List.getElem?_eq_none (by simpa using hi)] at hr
        cases hr
    subst hj
    simp only [hr, Option.map_some', Option.some.injEq] at hp
    subst hp
    constructor
    · exact Int.ediv_nonneg (by omega) (by omega)
    · intro hle
      have h1 : (100 * ((j : Int) + 1)) / count ≤ (100 * count) / count :=
        percentage_mono count _ _ h hle
      have h2 : (100 * count) / count = 100 := Int.mul_ediv_cancel 100 (by omega)
      omega

/-- Witness for C6 (amended): two domains, two lines. -/
theorem progress_bounded_upto_count_witness :
    (0 : Int) < 2 ∧
      ∃ ps, progressLoop 2 ["line 1", "line 2"] 0 = .ok ps ∧ ps.length = ["line 1", "line 2"].length ∧
        ∀ (i : Nat) (p : Int), ps[i]? = some p →
          0 ≤ p ∧ ((i : Int) + 1 ≤ 2 → p ≤ 100) :=
  ⟨by decide, progress_bounded_upto_count 2 ["line 1", "line 2"] (by decide)⟩

/-- C7. Progress monotonicity: for a domain count `count > 0` the loop reports,
for the lines number 1, 2, ..., n of prober output, the values
`(100*cur)/count`, a function of the line number alone, and this sequence is
non-decreasing. -/
theorem progress_monotone (count : Int) (lines : List String) (h : 0 < count) :
    progressLoop count lines 0 =
        .ok ((List.range lines.length).map (fun (i : Nat) => (100 * ((i : Int) + 1)) / count))
    ∧ List.Pairwise (fun p q => p ≤ q)
        ((List.range lines.length).map (fun (i : Nat) => (100 * ((i : Int) + 1)) / count))
    ∧ (∀ other : List String, other.length = lines.length →
        progressLoop count other 0 = progressLoop count lines 0) := by
  refine ⟨progressLoop_pos count h lines, ?_, ?_⟩
  · rw [List.pairwise_map]
    refine List.Pairwise.imp ?_ (List.pairwise_lt_range lines.length)
    intro a b hab
    exact percentage_mono count _ _ h (by omega)
  · intro other hlen
    rw [progressLoop_pos count h, progressLoop_pos count h, hlen]

/-- Witness for C7: three domains, four lines. -/
theorem progress_monotone_witness :
    (0 : Int) < 3 ∧
      (progressLoop 3 ["a", "b", "c", "d"] 0 =
          .ok ((List.range ["a", "b", "c", "d"].length).map
            (fun (i : Nat) => (100 * ((i : Int) + 1)) / 3))
        ∧ List.Pairwise (fun p q => p ≤ q)
          ((List.range ["a", "b", "c", "d"].length).map
            (fun (i : Nat) => (100 * ((i : Int) + 1)) / 3))
        ∧ (∀ other : List String, other.length = ["a", "b", "c", "d"].length →
            progressLoop 3 other 0 = progressLoop 3 ["a", "b", "c", "d"] 0)) :=
  ⟨by decide, progress_monotone 3 ["a", "b", "c", "d"] (by decide)⟩

/-- C10. Division by zero in progress reporting: the progress loop fails, with
a division by zero, exactly when the domain count is 0 and the prober prints
at least one line; for a non-zero count every percentage is defined, and
without output lines nothing is computed. -/
theorem progress_divide_by_zero (count : Int) (lines : List String) (cur : Int) :
    (progressLoop count lines 0 = .error Failure.divideByZero ↔ (count = 0 ∧ lines ≠ []))
    ∧ ((∃ ps, progressLoop count lines 0 = .ok ps) ↔ ¬ (count = 0 ∧ lines ≠ []))
    ∧ (percentage cur count = .error Failure.divideByZero ↔ count = 0)
    ∧ (count ≠ 0 → percentage cur count = .ok ((100 * cur).tdiv count))
    ∧ progressLoop count [] 0 = .ok [] := by
  refine ⟨?_, ?_, ?_, percentage_of_ne_zero cur count, rfl⟩
  · by_cases hc : count = 0
    · subst hc
      cases lines with
      | nil => simp [progressLoop]
      | cons l t => simp [progressLoop_zero_count]
    · simp [progressLoop_of_ne_zero count hc, hc]
  · by_cases hc : count = 0
    · subst hc
      cases lines with
      | nil => simp [progressLoop]
      | cons l t => simp [progressLoop_zero_count]
    · simp [progressLoop_of_ne_zero count hc, hc]
  · by_cases hc : count = 0
    · simp [percentage, hc]
    · simp [percentage, hc]

/-- C8, as stated, fails: a `Host` header whose value holds the `{host}`
placeholder is skipped, so the vector has no header flag although one header
was supplied. -/
theorem buildArgs_headers_counterexample :
    placeholderRequest.Request.Headers.length = 1
    ∧ buildArgs (some placeholderRequest) "paths.txt" "hosts.txt" "megoutput/" =
        ["-c", "30", "-v", "-X", "GET", "paths.txt", "hosts.txt", "megoutput/"]
    ∧ buildArgs (some placeholderRequest) "paths.txt" "hosts.txt" "megoutput/" ≠
        ["-c", "30", "-v", "-X", "GET", "-H", "Host: \x7bhost\x7d",
          "paths.txt", "hosts.txt", "megoutput/"]
    ∧ (buildArgs (some placeholderRequest) "paths.txt" "hosts.txt" "megoutput/").count "-H" = 0 := by
  decide

/-- C8, amended. Header flags: in structured-request mode the vector is `-c`,
`30`, `-v`, `-X`, Method; then, for every supplied header in iteration order
except a `Host` or `User-Agent` header whose value contains `{host}` (which is
left out), the pair `-H`, `name: val`, preceded by `--rawhttp` exactly when
the name is `Host` or `User-Agent`; then `-b`, Body if Body is non-empty;
then the three paths.  The number of header flags is the number of headers
that are not left out. -/
theorem buildArgs_headers (r : Request) (pathsPath hostsPath outPath : String) :
    buildArgs (some r) pathsPath hostsPath outPath =
      ["-c", "30", "-v", "-X", r.Request.Method]
        ++ (r.Request.Headers.filter (fun h =>
              !decide ((h.1 = "Host" ∨ h.1 = "User-Agent") ∧ Contains h.2 "\x7bhost\x7d" = true))).flatMap
            (fun h => (if h.1 = "Host" ∨ h.1 = "User-Agent" then ["--rawhttp"] else [])
              ++ ["-H", h.1 ++ ": " ++ h.2])
        ++ (if r.Request.Body = "" then [] else ["-b", r.Request.Body])
        ++ [pathsPath, hostsPath, outPath]
    ∧ ((r.Request.Headers.filter (fun h =>
              !decide ((h.1 = "Host" ∨ h.1 = "User-Agent") ∧ Contains h.2 "\x7bhost\x7d" = true))).flatMap
            (fun h => (if h.1 = "Host" ∨ h.1 = "User-Agent" then ["--rawhttp"] else [])
              ++ ["-H", h.1 ++ ": " ++ h.2])).count "-H" =
        (r.Request.Headers.filter (fun h =>
              !decide ((h.1 = "Host" ∨ h.1 = "User-Agent") ∧ Contains h.2 "\x7bhost\x7d" = true))).length := by
  refine ⟨?_, count_headerFlags _⟩
  simp only [buildArgs, headerStep_foldl]
  by_cases hb : r.Request.Body = ""
  · simp [hb]
  · simp [hb]

/-- C9, as stated, fails: a scan of the named config `default`, whose path
list is `/`, `/robots.txt`, completes without calling `wappalyzeResults`. -/
theorem wappalyze_config_counterexample :
    ∃ out, initHostScan configWorld "default" none = .ok out
      ∧ out.paths = ["/", "/robots.txt"] ∧ "/" ∈ out.paths ∧ out.wappalyze = false :=
  ⟨_, rfl, rfl, by decide, rfl⟩

/-- C9, amended. Fingerprint trigger: a scan that completes calls
`wappalyzeResults` exactly when its `input` argument is the literal `/`; a
scan of `/` without a structured request over a non-empty inventory completes,
has the path list `[/]` and calls it; a structured-request scan, which
`initWithJSONInput` starts with the empty input, never calls it. -/
theorem wappalyze_trigger (w : World) (input : String) (megRequest : Option Request) :
    (∀ out, initHostScan w input megRequest = .ok out → (out.wappalyze = true ↔ input = "/"))
    ∧ (w.dbQuery (buildQuery none) ≠ [] →
        ∃ out, initHostScan w "/" none = .ok out ∧ out.wappalyze = true ∧ out.paths = ["/"])
    ∧ (∀ r out, initWithJSONInput w r = .ok out → out.wappalyze = false) := by
  refine ⟨?_, ?_, ?_⟩
  · intro out h
    rw [initHostScan_wappalyze w input megRequest out h]
    simp
  · intro hrows
    have hres : resolvePaths w "/" none = .ok ["/"] := rfl
    have hcount : 0 < (writeHosts (w.dbQuery (buildQuery none))).2 := by
      rw [(writeHosts_count _)]
      have : 0 < (w.dbQuery (buildQuery none)).length := List.length_pos.mpr hrows
      omega
    simp only [initHostScan, hres, progressLoop_pos _ hcount]
    exact ⟨_, rfl, rfl, rfl⟩
  · intro r out h
    rw [initHostScan_wappalyze w "" (some r) out h]
    decide

/-- Witness for C9 (amended): the scan of `/` over the one-row inventory. -/
theorem wappalyze_trigger_witness :
    ∃ out, initHostScan configWorld "/" none = .ok out ∧ out.wappalyze = true ∧ out.paths = ["/"] :=
  (wappalyze_trigger configWorld "/" none).2.1 (by decide)

/-- C4, at a line that does not fit the scanner buffer: the first line grep
prints holds `/` and `:`, not the root-index marker, and is 65536 bytes or
more; the second is an ordinary line that alone produces one alert.  The grep
loop ends at the first line and produces no alert for either of them,
whereas every line that is not skipped should produce exactly one. -/
theorem grepLines_long_line :
    skipLine longLine = false
    ∧ skipLine shortLine = false
    ∧ maxScanTokenSize ≤ longLine.utf8ByteSize
    ∧ grepLines (outPathOf "20200101000000") "admin" [shortLine] [] =
        .ok ["Domain output matched string admin: admin panel"]
    ∧ grepLines (outPathOf "20200101000000") "admin" [longLine, shortLine] [] = .ok [] := by
  refine ⟨longLine_not_skipped, by decide, longLine_too_long, by rfl, ?_⟩
  rw [grepLines, if_pos longLine_too_long]

/-- C5, at the line grep prints for host `a.com`: the line is
`outPath ++ host ++ / ++ file ++ : ++ excerpt`, the host holds no `/`, and
the line passes the alert filter.  It does not contain `outPath ++ /`, whose
end is a double `/`, so nothing is stripped and the domain reported in the
alert line is `output`, not the host. -/
theorem alertDomain_single_slash :
    Contains "a.com" "/" = false
    ∧ skipLine (outPathOf "20200101000000" ++ "a.com" ++ "/" ++ "abc123" ++ ":" ++ "admin panel")
        = false
    ∧ alertDomain (outPathOf "20200101000000")
        (outPathOf "20200101000000" ++ "a.com" ++ "/" ++ "abc123" ++ ":" ++ "admin panel")
        = .ok "output"
    ∧ alertDomain (outPathOf "20200101000000")
        (outPathOf "20200101000000" ++ "a.com" ++ "/" ++ "abc123" ++ ":" ++ "admin panel")
        ≠ .ok "a.com"
    ∧ alertOfLine (outPathOf "20200101000000") "admin"
        (outPathOf "20200101000000" ++ "a.com" ++ "/" ++ "abc123" ++ ":" ++ "admin panel")
        = .ok (some "Domain output matched string admin: admin panel") := by
  have hd : alertDomain (outPathOf "20200101000000")
      (outPathOf "20200101000000" ++ "a.com" ++ "/" ++ "abc123" ++ ":" ++ "admin panel")
      = .ok "output" := by rfl
  refine ⟨by decide, by decide, hd, ?_, by rfl⟩
  intro h
  rw [hd] at h
  exact absurd (Except.ok.inj h) (by decide)

end Hostscanner
